import Mathlib

/-
  Shallow embedding of the heartbeat monitor sketch (heartbeat_oled.ino).

  The sketch reads an analog sample, tracks a baseline with an exponential
  moving average, detects rising edges with a refractory window, converts
  the interval between accepted beats into a BPM value, accepts BPM values
  only in the range 60..130, and keeps a 128-slot scrolling graph buffer.

  Modelling conventions:
  - `unsigned long` millisecond times are natural numbers; the C subtraction
    `now - lastBeatMs` on 32-bit unsigned values is modelled by `wsub`,
    subtraction modulo 2^32.
  - `float` arithmetic of the baseline tracker is idealised as exact
    rational arithmetic; the constant `emaAlpha` is the exact value of the
    IEEE-754 single-precision literal 0.05f, namely 13421773 / 2^28.
  - the C `int` values `bpm` and `bpmDisplayed` are `Int`; the unsigned
    division `60000UL / rr` is `Nat` division, cast to `Int` afterwards.
  - the graph buffer `uint8_t graphBuf[SCREEN_WIDTH]` is a `List Nat`;
    the claims about it carry the length-128 invariant as a hypothesis.
  - the display is an external collaborator: the only display-relevant
    facts modelled are whether `drawUI` is called from the beat path
    (the `Bool` component returned by `processBeat`) and which BPM text
    `drawUI` would show (`bpmText`).
-/

/-- Display width in pixels; also the capacity of the graph buffer. -/
def SCREEN_WIDTH : Nat := 128

/-- Display height in pixels. -/
def SCREEN_HEIGHT : Int := 64

/-- Top Y coordinate of the graph area (`graphTop = 20`). -/
def graphTop : Int := 20

/-- Bottom Y coordinate of the graph area (`graphBottom = SCREEN_HEIGHT - 1`). -/
def graphBottom : Int := SCREEN_HEIGHT - 1

/-- Refractory period in milliseconds (`refractoryMs = 250`). -/
def refractoryMs : Nat := 250

/-- Threshold delta above the baseline for peak detection (`thresholdDelta = 30`). -/
def thresholdDelta : Int := 30

/-- Modulus of the 32-bit `unsigned long` arithmetic on AVR Arduino. -/
def U32 : Nat := 4294967296

/-- C unsigned 32-bit subtraction `a - b`, i.e. subtraction modulo 2^32.
This models the expressions `now - lastBeatMs` and `now - lastRefresh`. -/
def wsub (a b : Nat) : Nat := (a + (U32 - b % U32)) % U32

/-- Exact rational value of the IEEE-754 single-precision literal `0.05f`
(the float nearest to 0.05 is 13421773 * 2^-28). -/
def emaAlpha : ℚ := 13421773 / 268435456

/-- One baseline update, line 154 of the sketch:
`ema = (1.0f - emaAlpha) * ema + emaAlpha * raw;`. -/
def emaUpdate (e x : ℚ) : ℚ := (1 - emaAlpha) * e + emaAlpha * x

/-- Input clamp of `mapBpmToY`, lines 62-63:
`if (v < 60) v = 60; if (v > 130) v = 130;`. -/
def vClamp (v : Int) : Int := if v < 60 then 60 else if v > 130 then 130 else v

/-- Raw interpolation of `mapBpmToY`, line 65:
`long y = graphBottom - (long)(graphBottom - graphTop) * (v - 60) / (130 - 60);`. -/
def yRaw (v : Int) : Int := graphBottom - (graphBottom - graphTop) * (v - 60) / (130 - 60)

/-- Output clamp of `mapBpmToY`, lines 66-67:
`if (y < graphTop) y = graphTop; if (y > graphBottom) y = graphBottom;`. -/
def yClamp (y : Int) : Int := if y < graphTop then graphTop else if y > graphBottom then graphBottom else y

/-- `mapBpmToY`, lines 60-69: clamp the BPM to [60,130], interpolate linearly
(60 to the bottom, 130 to the top of the graph area), clamp the Y value,
and return it as a `uint8_t` (always in [20,63], so the cast is lossless
and modelled by `Int.toNat`). -/
def mapBpmToY (v : Int) : Nat := (yClamp (yRaw (vClamp v))).toNat

/-- `pushGraph`, lines 140-147: shift every slot left by one and write the
mapped value of the new BPM into the rightmost slot. On a buffer of length
`SCREEN_WIDTH` the shift-and-overwrite loop is exactly
`drop 1` followed by appending the new value. -/
def pushGraph (buf : List Nat) (validBpm : Int) : List Nat :=
  buf.drop 1 ++ [mapBpmToY validBpm]

/-- The global mutable state of the sketch that the sampling loop reads and
writes (lines 41-57, excluding the display object itself). -/
structure St where
  ema : ℚ
  prevAbove : Bool
  lastBeatMs : Nat
  bpm : Int
  bpmDisplayed : Int
  graphBuf : List Nat
  lastRefresh : Nat
deriving DecidableEq

/-- The interval `now - lastBeatMs` in unsigned 32-bit arithmetic: the value
tested against `refractoryMs` at line 164 and used as the division
denominator `rr` at line 166. -/
def rrInterval (s : St) (now : Nat) : Nat := wsub now s.lastBeatMs

/-- Interval-to-BPM conversion, line 168: `int newBpm = (int)(60000UL / rr);`
(unsigned integer division, which truncates). -/
def bpmOfInterval (rr : Nat) : Nat := 60000 / rr

/-- Lines 162-180 of `loop`: rising-edge detection with refractory period,
interval-to-BPM conversion, range validation and, on acceptance, the state
update plus graph push. The returned `Bool` records whether the beat path
called `drawUI` (line 174). -/
def processBeat (s : St) (isAbove : Bool) (now : Nat) : St × Bool :=
  if isAbove && !s.prevAbove then
    if refractoryMs < rrInterval s now then
      if s.lastBeatMs ≠ 0 then
        let newBpm : Int := (bpmOfInterval (rrInterval s now) : Int)
        if 60 ≤ newBpm ∧ newBpm ≤ 130 then
          let s2 := { s with bpm := newBpm, bpmDisplayed := newBpm, graphBuf := pushGraph s.graphBuf newBpm, lastBeatMs := now }
          (s2, true)
        else
          ({ s with lastBeatMs := now }, false)
      else
        ({ s with lastBeatMs := now }, false)
    else (s, false)
  else (s, false)

/-- Classification of a sample against the updated baseline, line 157:
`bool isAbove = (raw > (ema + thresholdDelta));` (the comparison is done in
float; idealised as the exact rational comparison). -/
def isAboveOf (e : ℚ) (raw : Int) : Bool := decide (e + (thresholdDelta : ℚ) < (raw : ℚ))

/-- One iteration of `loop` (lines 149-193) given the sampled value `raw`
and the current time `now`: baseline update, classification, beat
processing, `prevAbove` update, and the periodic 500 ms refresh. The two
`Bool` results record a beat-path redraw (line 174) and a periodic redraw
(line 189). -/
def loopStep (s : St) (raw : Int) (now : Nat) : St × Bool × Bool :=
  let e2 := emaUpdate s.ema raw
  let ab := isAboveOf e2 raw
  let p := processBeat { s with ema := e2 } ab now
  let s2 := { p.1 with prevAbove := ab }
  if 500 < wsub now s2.lastRefresh then
    ({ s2 with lastRefresh := now }, p.2, true)
  else
    (s2, p.2, false)

/-- The BPM text decision of `drawUI`, lines 110-114: show the number iff
`60 <= bpmDisplayed <= 130`, otherwise show the placeholder. `some b` means
the number `b` is printed, `none` means the placeholder is printed. -/
def bpmText (b : Int) : Option Int := if 60 ≤ b ∧ b ≤ 130 then some b else none

/-- Initial state after `setup` (lines 41-57 and 91-95): baseline 512,
no edge seen, sentinel timestamp 0, BPM 0, graph pre-filled with the
coordinate of 95 BPM. -/
def initSt : St :=
  { ema := 512, prevAbove := false, lastBeatMs := 0, bpm := 0,
    bpmDisplayed := 0, graphBuf := List.replicate SCREEN_WIDTH (mapBpmToY 95),
    lastRefresh := 0 }

section Helpers

/-- On times below 2^32 with a non-wrapped anchor, the unsigned subtraction
is plain subtraction. -/
lemma wsub_eq_sub {a b : Nat} (hba : b ≤ a) (ha : a < U32) : wsub a b = a - b := by
  unfold wsub U32 at *
  omega

/-- `processBeat` under a rising edge that passes the refractory check, with
a real (non-sentinel) anchor and an in-range candidate: the accept branch. -/
lemma processBeat_accept (s : St) (now : Nat) (h1 : s.prevAbove = false)
    (h2 : s.lastBeatMs ≠ 0) (h3 : refractoryMs < rrInterval s now)
    (h4 : 60 ≤ (bpmOfInterval (rrInterval s now) : Int) ∧ (bpmOfInterval (rrInterval s now) : Int) ≤ 130) :
    processBeat s true now =
      ({ s with bpm := (bpmOfInterval (rrInterval s now) : Int),
                bpmDisplayed := (bpmOfInterval (rrInterval s now) : Int),
                graphBuf := pushGraph s.graphBuf (bpmOfInterval (rrInterval s now) : Int),
                lastBeatMs := now }, true) := by
  unfold processBeat
  rw [h1]
  simp only [Bool.not_false, Bool.and_true, if_true]
  rw [if_pos h3, if_pos h2, if_pos h4]

/-- `processBeat` under a rising edge that passes the refractory check, with
a real anchor and an out-of-range candidate: the reject branch. -/
lemma processBeat_reject (s : St) (now : Nat) (h1 : s.prevAbove = false)
    (h2 : s.lastBeatMs ≠ 0) (h3 : refractoryMs < rrInterval s now)
    (h4 : ¬(60 ≤ (bpmOfInterval (rrInterval s now) : Int) ∧ (bpmOfInterval (rrInterval s now) : Int) ≤ 130)) :
    processBeat s true now = ({ s with lastBeatMs := now }, false) := by
  unfold processBeat
  rw [h1]
  simp only [Bool.not_false, Bool.and_true, if_true]
  rw [if_pos h3, if_pos h2, if_neg h4]

/-- `processBeat` under a rising edge that passes the refractory check while
the anchor still holds the sentinel 0: only the timestamp is set. -/
lemma processBeat_sentinel (s : St) (now : Nat) (h1 : s.prevAbove = false)
    (h0 : s.lastBeatMs = 0) (h3 : refractoryMs < rrInterval s now) :
    processBeat s true now = ({ s with lastBeatMs := now }, false) := by
  unfold processBeat
  rw [h1]
  simp only [Bool.not_false, Bool.and_true, if_true]
  rw [if_pos h3, if_neg (by simp [h0])]

/-- `processBeat` under a rising edge that fails the refractory check:
nothing happens. -/
lemma processBeat_refractory (s : St) (now : Nat) (h1 : s.prevAbove = false)
    (h3 : ¬ refractoryMs < rrInterval s now) :
    processBeat s true now = (s, false) := by
  unfold processBeat
  rw [h1]
  simp only [Bool.not_false, Bool.and_true, if_true]
  rw [if_neg h3]

/-- A shared concrete state: some beat was accepted at time 1000 ms. -/
def anchorSt : St := { initSt with lastBeatMs := 1000 }

end Helpers

/-- C5: division by zero never occurs in the interval-to-BPM conversion:
the refractory period is positive, and on every iteration that reaches the
division (rising edge, refractory passed, non-sentinel anchor) the divisor
`rr = now - lastBeatMs` is strictly positive. -/
theorem divisionGuard :
    0 < refractoryMs ∧
    ∀ (s : St) (now : Nat), s.prevAbove = false → s.lastBeatMs ≠ 0 →
      refractoryMs < rrInterval s now → 0 < rrInterval s now := by
  refine ⟨by decide, fun s now _ _ h => ?_⟩
  unfold refractoryMs at h
  omega

/-- C5 witness: the guard instantiated at a concrete reachable division. -/
theorem divisionGuard_witness : 0 < rrInterval anchorSt 2000 :=
  divisionGuard.2 anchorSt 2000 rfl (by decide) (by decide)

/-- C6: the interval-to-BPM conversion is truncating integer division of
60000 by the interval: 500 ms gives 120 BPM, 1000 ms gives 60 BPM, 461 ms
gives 130 BPM, and in general the result is the floor of 60000 / rr. -/
theorem bpmConversion :
    bpmOfInterval 500 = 120 ∧ bpmOfInterval 1000 = 60 ∧ bpmOfInterval 461 = 130 ∧
    ∀ rr : Nat, 0 < rr →
      bpmOfInterval rr * rr ≤ 60000 ∧ 60000 < (bpmOfInterval rr + 1) * rr := by
  refine ⟨by decide, by decide, by decide, fun rr hrr => ⟨Nat.div_mul_le_self 60000 rr, ?_⟩⟩
  calc 60000 < 60000 / rr * rr + rr := Nat.lt_div_mul_add hrr
    _ = (60000 / rr + 1) * rr := by ring

/-- C6 witness: the floor characterisation instantiated at 461 ms. -/
theorem bpmConversion_witness :
    bpmOfInterval 461 * 461 ≤ 60000 ∧ 60000 < (bpmOfInterval 461 + 1) * 461 :=
  bpmConversion.2.2.2 461 (by decide)

/-- C1: range validation accepts a computed BPM candidate iff
`60 <= candidate <= 130` (acceptance meaning the accept branch runs: the
persisted and displayed BPM are set to the candidate, the graph is pushed
and a redraw fires); at the boundaries, a candidate of 59 or 131 is
rejected while 60 and 130 are accepted and update the persisted BPM. -/
theorem rangeValidation :
    (∀ (s : St) (now : Nat), s.prevAbove = false → s.lastBeatMs ≠ 0 →
      refractoryMs < rrInterval s now →
      (((processBeat s true now).2 = true) ↔
        (60 ≤ (bpmOfInterval (rrInterval s now) : Int) ∧ (bpmOfInterval (rrInterval s now) : Int) ≤ 130)) ∧
      ((60 ≤ (bpmOfInterval (rrInterval s now) : Int) ∧ (bpmOfInterval (rrInterval s now) : Int) ≤ 130) →
        (processBeat s true now).1.bpm = (bpmOfInterval (rrInterval s now) : Int) ∧
        (processBeat s true now).1.bpmDisplayed = (bpmOfInterval (rrInterval s now) : Int))) ∧
    (bpmOfInterval (rrInterval anchorSt 2016) = 59 ∧
      (processBeat anchorSt true 2016).2 = false ∧
      (processBeat anchorSt true 2016).1.bpm = anchorSt.bpm) ∧
    (bpmOfInterval (rrInterval anchorSt 2000) = 60 ∧
      (processBeat anchorSt true 2000).2 = true ∧
      (processBeat anchorSt true 2000).1.bpm = 60) ∧
    (bpmOfInterval (rrInterval anchorSt 1461) = 130 ∧
      (processBeat anchorSt true 1461).2 = true ∧
      (processBeat anchorSt true 1461).1.bpm = 130) ∧
    (bpmOfInterval (rrInterval anchorSt 1458) = 131 ∧
      (processBeat anchorSt true 1458).2 = false ∧
      (processBeat anchorSt true 1458).1.bpm = anchorSt.bpm) := by
  refine ⟨fun s now h1 h2 h3 => ?_, by decide, by decide, by decide, by decide⟩
  by_cases h4 : 60 ≤ (bpmOfInterval (rrInterval s now) : Int) ∧ (bpmOfInterval (rrInterval s now) : Int) ≤ 130
  · rw [processBeat_accept s now h1 h2 h3 h4]
    exact ⟨⟨fun _ => h4, fun _ => rfl⟩, fun _ => ⟨rfl, rfl⟩⟩
  · rw [processBeat_reject s now h1 h2 h3 h4]
    exact ⟨⟨fun hft => absurd hft (by simp), fun h => (h4 h).elim⟩, fun h => (h4 h).elim⟩

/-- C1 witness: the acceptance criterion applied at a concrete candidate of
60 BPM (interval 1000 ms from the anchor at 1000 ms). -/
theorem rangeValidation_witness :
    (processBeat anchorSt true 2000).2 = true ∧
    (processBeat anchorSt true 2000).1.bpm = (bpmOfInterval (rrInterval anchorSt 2000) : Int) := by
  have h := rangeValidation.1 anchorSt 2000 rfl (by decide) (by decide)
  exact ⟨h.1.mpr (by decide), (h.2 (by decide)).1⟩

/-- C2: when a computed BPM candidate is rejected as out of range, the
persisted BPM, the displayed BPM and every slot of the trend buffer keep
their previous values, the beat path triggers no redraw, and the
last-beat timestamp is still updated to the current time (the whole
resulting state is the old one with only the timestamp replaced). -/
theorem rejectionFrame (s : St) (now : Nat) (h1 : s.prevAbove = false)
    (h2 : s.lastBeatMs ≠ 0) (h3 : refractoryMs < rrInterval s now)
    (h4 : ¬(60 ≤ (bpmOfInterval (rrInterval s now) : Int) ∧ (bpmOfInterval (rrInterval s now) : Int) ≤ 130)) :
    (processBeat s true now).1.bpm = s.bpm ∧
    (processBeat s true now).1.bpmDisplayed = s.bpmDisplayed ∧
    (processBeat s true now).1.graphBuf = s.graphBuf ∧
    (processBeat s true now).2 = false ∧
    (processBeat s true now).1.lastBeatMs = now ∧
    (processBeat s true now).1 = { s with lastBeatMs := now } := by
  rw [processBeat_reject s now h1 h2 h3 h4]
  exact ⟨rfl, rfl, rfl, rfl, rfl, rfl⟩

/-- C2 witness: the rejection frame at a concrete out-of-range candidate of
131 BPM (interval 458 ms). -/
theorem rejectionFrame_witness :
    (processBeat anchorSt true 1458).1.bpm = anchorSt.bpm ∧
    (processBeat anchorSt true 1458).1.bpmDisplayed = anchorSt.bpmDisplayed ∧
    (processBeat anchorSt true 1458).1.graphBuf = anchorSt.graphBuf ∧
    (processBeat anchorSt true 1458).2 = false ∧
    (processBeat anchorSt true 1458).1.lastBeatMs = 1458 ∧
    (processBeat anchorSt true 1458).1 = { anchorSt with lastBeatMs := 1458 } :=
  rejectionFrame anchorSt 1458 rfl (by decide) (by decide) (by decide)

/-- C3: refractory enforcement. A candidate that passes the refractory
check updates the last-beat timestamp to its own time; a second candidate
whose time is less than the refractory period after the recorded beat
leaves the state completely unchanged (it is not promoted and does not
update the timestamp), so of two candidates closer than the refractory
period exactly the first updates the timestamp; and in general a rising
edge is processed only when the elapsed time since the recorded beat
strictly exceeds the refractory period. -/
theorem refractorySuppression :
    (∀ (s : St) (t1 : Nat), s.prevAbove = false → refractoryMs < rrInterval s t1 →
      (processBeat s true t1).1.lastBeatMs = t1) ∧
    (∀ (s : St) (t2 : Nat), s.prevAbove = false → s.lastBeatMs ≤ t2 → t2 < U32 →
      t2 - s.lastBeatMs < refractoryMs → processBeat s true t2 = (s, false)) ∧
    (∀ (s : St) (t : Nat), s.prevAbove = false → rrInterval s t ≤ refractoryMs →
      processBeat s true t = (s, false)) := by
  refine ⟨fun s t1 h1 h3 => ?_, fun s t2 h1 hle hlt hgap => ?_, fun s t h1 hfail => ?_⟩
  · by_cases h2 : s.lastBeatMs ≠ 0
    · by_cases h4 : 60 ≤ (bpmOfInterval (rrInterval s t1) : Int) ∧ (bpmOfInterval (rrInterval s t1) : Int) ≤ 130
      · rw [processBeat_accept s t1 h1 h2 h3 h4]
      · rw [processBeat_reject s t1 h1 h2 h3 h4]
    · rw [processBeat_sentinel s t1 h1 (by omega) h3]
  · have hrr : rrInterval s t2 = t2 - s.lastBeatMs := wsub_eq_sub hle hlt
    exact processBeat_refractory s t2 h1 (by rw [hrr]; omega)
  · exact processBeat_refractory s t h1 (by omega)

/-- C3 witness: a beat recorded at 2000 ms and a second candidate at
2100 ms (100 ms later, inside the 250 ms window) leaves the state
unchanged, while the earlier candidate at 2000 ms did update the
timestamp. -/
theorem refractorySuppression_witness :
    (processBeat anchorSt true 2000).1.lastBeatMs = 2000 ∧
    processBeat { initSt with lastBeatMs := 2000 } true 2100 =
      ({ initSt with lastBeatMs := 2000 }, false) :=
  ⟨refractorySuppression.1 anchorSt 2000 rfl (by decide),
   refractorySuppression.2.1 { initSt with lastBeatMs := 2000 } 2100 rfl (by decide) (by decide) (by decide)⟩

/-- C4 counterexample: in the initial state the last-beat timestamp holds
the sentinel 0 and no sample was above threshold; a rising-edge candidate
at time 100 ms does not update the timestamp at all (it stays 0 instead of
becoming 100), because the refractory comparison against the sentinel is
evaluated before the sentinel test. -/
theorem firstCandidate_cex :
    initSt.lastBeatMs = 0 ∧ initSt.prevAbove = false ∧
    (processBeat initSt true 100).1.lastBeatMs = 0 ∧
    (processBeat initSt true 100).1.lastBeatMs ≠ 100 := by decide

/-- C4 amended: a rising-edge candidate in the sentinel state updates the
last-beat timestamp to the current time, provided its elapsed time measured
from 0 exceeds the refractory period; it produces no interval and no BPM
(persisted BPM, displayed BPM and trend buffer are unchanged, no redraw). -/
theorem firstCandidate (s : St) (now : Nat) (h1 : s.prevAbove = false)
    (h0 : s.lastBeatMs = 0) (h3 : refractoryMs < rrInterval s now) :
    (processBeat s true now).1.lastBeatMs = now ∧
    (processBeat s true now).1.bpm = s.bpm ∧
    (processBeat s true now).1.bpmDisplayed = s.bpmDisplayed ∧
    (processBeat s true now).1.graphBuf = s.graphBuf ∧
    (processBeat s true now).2 = false := by
  rw [processBeat_sentinel s now h1 h0 h3]
  exact ⟨rfl, rfl, rfl, rfl, rfl⟩

/-- C4 witness: the first candidate at 300 ms (past the refractory window
measured from 0) sets the timestamp to 300 and changes nothing else. -/
theorem firstCandidate_witness :
    (processBeat initSt true 300).1.lastBeatMs = 300 ∧
    (processBeat initSt true 300).1.bpm = initSt.bpm ∧
    (processBeat initSt true 300).1.bpmDisplayed = initSt.bpmDisplayed ∧
    (processBeat initSt true 300).1.graphBuf = initSt.graphBuf ∧
    (processBeat initSt true 300).2 = false :=
  firstCandidate initSt 300 rfl rfl (by decide)

/-- A push result is never empty. -/
lemma pushGraph_ne_nil (buf : List Nat) (v : Int) : pushGraph buf v ≠ [] := by
  simp [pushGraph]

/-- Folding pushes over a nonempty buffer appends the mapped values and
drops as many slots from the front. -/
lemma foldl_pushGraph (vs : List Int) :
    ∀ buf : List Nat, buf ≠ [] →
      List.foldl pushGraph buf vs =
        (buf ++ vs.map (fun w => mapBpmToY w)).drop vs.length := by
  induction vs with
  | nil => intro buf _; simp
  | cons v vs ih =>
    intro buf hbuf
    match buf, hbuf with
    | b :: bt, _ =>
      rw [List.foldl_cons, ih (pushGraph (b :: bt) v) (pushGraph_ne_nil _ _)]
      simp [pushGraph, List.drop_succ_cons, List.append_assoc]

/-- C7: the trend buffer is a fixed-capacity FIFO. On a buffer at the
capacity `SCREEN_WIDTH = 128`, a push keeps the length constant, makes the
mapped new value the rightmost element, evicts exactly the leftmost element
while keeping the retained elements in their old relative order, and
pushing 129 values evicts exactly the oldest of them, leaving the other
128 in chronological order. -/
theorem trendBufferFifo (buf : List Nat) (v : Int) (hlen : buf.length = SCREEN_WIDTH) :
    (pushGraph buf v).length = SCREEN_WIDTH ∧
    (pushGraph buf v).getLast? = some (mapBpmToY v) ∧
    pushGraph buf v = buf.drop 1 ++ [mapBpmToY v] ∧
    (∀ vs : List Int, vs.length = SCREEN_WIDTH + 1 →
      List.foldl pushGraph buf vs = (vs.map (fun w => mapBpmToY w)).drop 1) := by
  unfold SCREEN_WIDTH at *
  refine ⟨?_, List.getLast?_concat _, rfl, fun vs hvs => ?_⟩
  · simp [pushGraph]
    omega
  · rw [foldl_pushGraph vs buf (by intro h; rw [h] at hlen; simp at hlen)]
    rw [hvs, show (128 + 1) = buf.length + 1 by omega]
    rw [show buf.length + 1 = buf.length + 1 from rfl]
    rw [List.drop_append]

/-- C7 witness: a push onto the initial (capacity-128) buffer. -/
theorem trendBufferFifo_witness :
    (pushGraph initSt.graphBuf 100).length = SCREEN_WIDTH ∧
    (pushGraph initSt.graphBuf 100).getLast? = some (mapBpmToY 100) ∧
    pushGraph initSt.graphBuf 100 = initSt.graphBuf.drop 1 ++ [mapBpmToY 100] ∧
    (∀ vs : List Int, vs.length = SCREEN_WIDTH + 1 →
      List.foldl pushGraph initSt.graphBuf vs = (vs.map (fun w => mapBpmToY w)).drop 1) :=
  trendBufferFifo initSt.graphBuf 100 (by simp [initSt, SCREEN_WIDTH])

/-- A BPM at or below 60 is mapped like 60. -/
lemma mapBpmToY_low {v : Int} (h : v ≤ 60) : mapBpmToY v = mapBpmToY 60 := by
  have hv : vClamp v = 60 := by unfold vClamp; split_ifs <;> omega
  have hv60 : vClamp 60 = 60 := by decide
  unfold mapBpmToY
  rw [hv, hv60]

/-- A BPM at or above 130 is mapped like 130. -/
lemma mapBpmToY_high {v : Int} (h : 130 ≤ v) : mapBpmToY v = mapBpmToY 130 := by
  have hv : vClamp v = 130 := by unfold vClamp; split_ifs <;> omega
  have hv130 : vClamp 130 = 130 := by decide
  unfold mapBpmToY
  rw [hv, hv130]

/-- Closed form of the mapping on the clamped range. -/
lemma mapBpmToY_mid {v : Int} (h1 : 60 ≤ v) (h2 : v ≤ 130) :
    mapBpmToY v = (63 - 43 * (v - 60) / 70).toNat := by
  have hv : vClamp v = v := by unfold vClamp; split_ifs <;> omega
  have hlo : ¬ yRaw v < graphTop := by
    unfold yRaw graphTop graphBottom SCREEN_HEIGHT; omega
  have hhi : ¬ graphBottom < yRaw v := by
    unfold yRaw graphTop graphBottom SCREEN_HEIGHT; omega
  have hval : yRaw v = 63 - 43 * (v - 60) / 70 := by
    unfold yRaw graphTop graphBottom SCREEN_HEIGHT; omega
  unfold mapBpmToY yClamp
  rw [hv, if_neg hlo, if_neg (by exact fun hgt => hhi hgt), hval]

/-- The mapping is antitone on the clamped range. -/
lemma mapBpmToY_anti_mid {a b : Int} (ha : 60 ≤ a) (hab : a ≤ b) (hb : b ≤ 130) :
    mapBpmToY b ≤ mapBpmToY a := by
  rw [mapBpmToY_mid (by omega) hb, mapBpmToY_mid ha (by omega)]
  omega

/-- C8: the BPM-to-Y mapping clamps to [60,130] and interpolates linearly
with an inverted axis: 60 maps exactly to the bottom coordinate, 130 to the
top coordinate, the output is non-increasing in the input, and every input
below 60 (resp. above 130) maps to the same coordinate as 60 (resp. 130). -/
theorem mapMonotone :
    mapBpmToY 60 = graphBottom.toNat ∧
    mapBpmToY 130 = graphTop.toNat ∧
    (∀ a b : Int, a ≤ b → mapBpmToY b ≤ mapBpmToY a) ∧
    (∀ v : Int, v < 60 → mapBpmToY v = mapBpmToY 60) ∧
    (∀ v : Int, 130 < v → mapBpmToY v = mapBpmToY 130) := by
  refine ⟨by decide, by decide, fun a b hab => ?_, fun v hv => mapBpmToY_low (by omega),
    fun v hv => mapBpmToY_high (by omega)⟩
  rcases le_total b 60 with hb | hb
  · rw [mapBpmToY_low (le_trans hab hb), mapBpmToY_low hb]
  rcases le_total 130 a with ha | ha
  · rw [mapBpmToY_high ha, mapBpmToY_high (le_trans ha hab)]
  rcases le_total a 60 with ha60 | ha60
  · rw [mapBpmToY_low ha60]
    rcases le_total b 130 with hb130 | hb130
    · exact mapBpmToY_anti_mid le_rfl hb hb130
    · rw [mapBpmToY_high hb130]
      exact mapBpmToY_anti_mid le_rfl (by omega) le_rfl
  · rcases le_total b 130 with hb130 | hb130
    · exact mapBpmToY_anti_mid ha60 hab hb130
    · rw [mapBpmToY_high hb130]
      exact mapBpmToY_anti_mid ha60 ha le_rfl

/-- C8 witness: monotonicity applied at the reference points 60, 95, 130. -/
theorem mapMonotone_witness :
    mapBpmToY 95 ≤ mapBpmToY 60 ∧ mapBpmToY 130 ≤ mapBpmToY 95 :=
  ⟨mapMonotone.2.2.1 60 95 (by decide), mapMonotone.2.2.1 95 130 (by decide)⟩

/-- C9: the baseline update is the deterministic exponential moving average
with the fixed smoothing factor `emaAlpha` strictly between 0 and 1 (the
exact rational value of the float constant 0.05f), and it stays within
[0, 1023] whenever the previous baseline and the sample do. -/
theorem emaSpec :
    (0 < emaAlpha ∧ emaAlpha < 1) ∧
    (∀ e x : ℚ, emaUpdate e x = (1 - emaAlpha) * e + emaAlpha * x) ∧
    (∀ e x : ℚ, 0 ≤ e → e ≤ 1023 → 0 ≤ x → x ≤ 1023 →
      0 ≤ emaUpdate e x ∧ emaUpdate e x ≤ 1023) := by
  have h0 : (0:ℚ) < emaAlpha := by norm_num [emaAlpha]
  have h1 : emaAlpha < 1 := by norm_num [emaAlpha]
  refine ⟨⟨h0, h1⟩, fun e x => rfl, fun e x he0 he1 hx0 hx1 => ⟨?_, ?_⟩⟩
  · have a1 : 0 ≤ (1 - emaAlpha) * e := mul_nonneg (by linarith) he0
    have a2 : 0 ≤ emaAlpha * x := mul_nonneg h0.le hx0
    unfold emaUpdate
    linarith
  · have a1 : (1 - emaAlpha) * e ≤ (1 - emaAlpha) * 1023 :=
      mul_le_mul_of_nonneg_left he1 (by linarith)
    have a2 : emaAlpha * x ≤ emaAlpha * 1023 := mul_le_mul_of_nonneg_left hx1 h0.le
    unfold emaUpdate
    linarith

/-- C9 witness: the bounds applied at baseline 512 and sample 500. -/
theorem emaSpec_witness : 0 ≤ emaUpdate 512 500 ∧ emaUpdate 512 500 ≤ 1023 :=
  emaSpec.2.2 512 500 (by norm_num) (by norm_num) (by norm_num) (by norm_num)

/-- Without a rising edge nothing happens in the beat path. -/
lemma processBeat_noedge (s : St) (ab : Bool) (now : Nat)
    (h : (ab && !s.prevAbove) = false) : processBeat s ab now = (s, false) := by
  unfold processBeat
  rw [h]
  simp

/-- Every branch of the beat path: the state is unchanged, or only the
timestamp is set, or an in-range candidate is accepted. -/
lemma processBeat_cases (s : St) (ab : Bool) (now : Nat) :
    processBeat s ab now = (s, false) ∨
    processBeat s ab now = ({ s with lastBeatMs := now }, false) ∨
    (60 ≤ (bpmOfInterval (rrInterval s now) : Int) ∧
      (bpmOfInterval (rrInterval s now) : Int) ≤ 130 ∧
      processBeat s ab now =
        ({ s with bpm := (bpmOfInterval (rrInterval s now) : Int),
                  bpmDisplayed := (bpmOfInterval (rrInterval s now) : Int),
                  graphBuf := pushGraph s.graphBuf (bpmOfInterval (rrInterval s now) : Int),
                  lastBeatMs := now }, true)) := by
  cases hE : (ab && !s.prevAbove) with
  | false => exact Or.inl (processBeat_noedge s ab now hE)
  | true =>
    have hab : ab = true := by
      cases ab
      · simp at hE
      · rfl
    have hprev : s.prevAbove = false := by
      cases hp : s.prevAbove
      · rfl
      · rw [hab, hp] at hE; simp at hE
    subst hab
    by_cases h3 : refractoryMs < rrInterval s now
    · by_cases h2 : s.lastBeatMs ≠ 0
      · by_cases h4 : 60 ≤ (bpmOfInterval (rrInterval s now) : Int) ∧
          (bpmOfInterval (rrInterval s now) : Int) ≤ 130
        · exact Or.inr (Or.inr ⟨h4.1, h4.2, processBeat_accept s now hprev h2 h3 h4⟩)
        · exact Or.inr (Or.inl (processBeat_reject s now hprev h2 h3 h4))
      · exact Or.inr (Or.inl (processBeat_sentinel s now hprev (by omega) h3))
    · exact Or.inl (processBeat_refractory s now hprev h3)

/-- The BPM fields after one whole loop iteration are the BPM fields
produced by the beat path (the periodic refresh and the edge-flag update
touch neither). -/
lemma loopStep_fields (s : St) (raw : Int) (now : Nat) :
    (loopStep s raw now).1.bpm =
      (processBeat { s with ema := emaUpdate s.ema raw } (isAboveOf (emaUpdate s.ema raw) raw) now).1.bpm ∧
    (loopStep s raw now).1.bpmDisplayed =
      (processBeat { s with ema := emaUpdate s.ema raw } (isAboveOf (emaUpdate s.ema raw) raw) now).1.bpmDisplayed := by
  unfold loopStep
  dsimp only
  split <;> exact ⟨rfl, rfl⟩

/-- The invariant kept by the sampling loop: the persisted BPM and the
displayed BPM are each either the initial 0 or a value inside [60,130]. -/
def bpmInv (s : St) : Prop :=
  (s.bpm = 0 ∨ (60 ≤ s.bpm ∧ s.bpm ≤ 130)) ∧
  (s.bpmDisplayed = 0 ∨ (60 ≤ s.bpmDisplayed ∧ s.bpmDisplayed ≤ 130))

/-- C10: the invariant holds initially and is kept by every loop iteration,
and `drawUI` shows the placeholder for the initial 0 while showing the
number itself for every value in [60,130]; so under the invariant the
display is always either the placeholder or a number within 60..130. -/
theorem bpmInvariant :
    bpmInv initSt ∧
    (∀ (s : St) (raw : Int) (now : Nat), bpmInv s → bpmInv (loopStep s raw now).1) ∧
    (∀ b : Int, (b = 0 → bpmText b = none) ∧ ((60 ≤ b ∧ b ≤ 130) → bpmText b = some b)) ∧
    (∀ s : St, bpmInv s →
      bpmText s.bpmDisplayed = none ∨
      (bpmText s.bpmDisplayed = some s.bpmDisplayed ∧
        60 ≤ s.bpmDisplayed ∧ s.bpmDisplayed ≤ 130)) := by
  refine ⟨⟨Or.inl rfl, Or.inl rfl⟩, fun s raw now hs => ?_,
    fun b => ⟨fun hb => ?_, fun hb => ?_⟩, fun s hs => ?_⟩
  · obtain ⟨h1, h2⟩ := loopStep_fields s raw now
    have hc := processBeat_cases { s with ema := emaUpdate s.ema raw }
      (isAboveOf (emaUpdate s.ema raw) raw) now
    unfold bpmInv at hs ⊢
    rcases hc with h | h | ⟨hr1, hr2, h⟩
    · rw [h1, h2, h]; exact hs
    · rw [h1, h2, h]; exact hs
    · rw [h1, h2, h]; exact ⟨Or.inr ⟨hr1, hr2⟩, Or.inr ⟨hr1, hr2⟩⟩
  · rw [hb]; decide
  · unfold bpmText; rw [if_pos hb]
  · rcases hs.2 with h0 | hr
    · left; rw [h0]; decide
    · right
      refine ⟨by unfold bpmText; rw [if_pos hr], hr.1, hr.2⟩

/-- C10 witness: the invariant carried across one concrete loop iteration
from the initial state. -/
theorem bpmInvariant_witness : bpmInv (loopStep initSt 500 5).1 :=
  bpmInvariant.2.1 initSt 500 5 ⟨Or.inl rfl, Or.inl rfl⟩
